import Mathlib

/-!
Shallow embedding of `src/GCPMarkerAdditions/ImportMarkerFeatures.py`.

Files are modelled as the data written to them: a feature file is the list
of written lines, a descriptor file is its list of bytes (each `< 256`),
the match file is its final string content.  Logging, the progress bar and
the `found_markers` report are omitted: they are write-only observability
state that cannot fail (every key of `found_markers` is seeded before use)
and no output depends on them.  Python `dict`s are modelled as association
lists with Python's semantics: assignment replaces in place or appends,
iteration follows insertion order.
-/

/-- Split a character list at every occurrence of a delimiter character
(the splitting primitive behind `os.path.basename`, the line splitting and
the `csv.reader` field splitting; all delimiters in this program are
single characters, and the CSV quoting rules of `csv.reader` are outside
the model). -/
def splitOnChar (delim : Char) : List Char → List (List Char)
  | [] => [[]]
  | c :: rest =>
      match splitOnChar delim rest with
      | [] => [[]]
      | cur :: rs => if c = delim then [] :: cur :: rs else (c :: cur) :: rs

/-- `os.path.basename`: the part of the path after the last slash. -/
def basename (p : String) : String := ((splitOnChar '/' p.toList).getLastD []).asString

/-- The digit-accumulating core of `int()`: `none` on any non-digit. -/
def digitsVal : List Char → Nat → Option Nat
  | [], acc => some acc
  | c :: rest, acc =>
      if c.isDigit then digitsVal rest (acc * 10 + (c.toNat - '0'.toNat)) else none

/-- Python `int()` on an optionally signed decimal literal (`ValueError`,
i.e. `none`, otherwise; surrounding whitespace and underscore digit
separators, which Python would also accept, are not modelled). -/
def parseInt (s : String) : Option Int :=
  match s.toList with
  | [] => none
  | '-' :: rest =>
      match rest with
      | [] => none
      | _ => (digitsVal rest 0).map (fun n => -(n : Int))
  | '+' :: rest =>
      match rest with
      | [] => none
      | _ => (digitsVal rest 0).map (fun n => (n : Int))
  | l => (digitsVal l 0).map (fun n => (n : Int))

/-- First-match association-list lookup: the read half of a Python `dict`
(`d[k]`, returning `none` where Python raises `KeyError`). -/
def lookupA {α β : Type} [DecidableEq α] : List (α × β) → α → Option β
  | [], _ => none
  | (k', v) :: rest, k => if k' = k then some v else lookupA rest k

/-- Python `dict` assignment `d[k] = v`: replaces the value in place if the
key is present, otherwise appends the new binding at the end. -/
def dictInsert {α β : Type} [DecidableEq α] : List (α × β) → α → β → List (α × β)
  | [], k, v => [(k, v)]
  | (k', v') :: rest, k, v =>
      if k' = k then (k', v) :: rest else (k', v') :: dictInsert rest k v

/-- One marker observation as stored by `load_images`:
`[row[0], row[1], row[4], int(row[3])]`, i.e. x, y and size kept as raw
text and the marker id parsed as an integer. -/
structure Marker where
  x : String
  y : String
  size : String
  tagid : Int
deriving DecidableEq, Repr

/-- One record of the `"views"` list of the input SfMData document; only
the `path` and `viewId` fields are read (`viewId` is a JSON string). -/
structure ViewRec where
  path : String
  viewId : String
deriving DecidableEq, Repr

abbrev Images := List (String × List Marker)
abbrev InnerFL := List (Int × String)
abbrev FeatureLookup := List (String × InnerFL)

/-- One row of the CSV, as `load_images` reads it:
`(row[2], row[0], row[1], row[4], int(row[3]))`, reassociated so that the
image file name `row[2]` is the key and the rest forms the `Marker`.
Fails (Python `ValueError`) when field 3 is not an integer literal, or
(`IndexError`) when the row has fewer than five fields. -/
def parseFields (fields : List String) : Option (String × Marker) :=
  match fields with
  | f0 :: f1 :: f2 :: f3 :: f4 :: _ =>
      (parseInt f3).map (fun t => (f2, { x := f0, y := f1, size := f4, tagid := t }))
  | _ => none

/-- The list comprehension building `csv_data`: all rows parsed, first
failure aborts the run. -/
def parseRows : List (List String) → Option (List (String × Marker))
  | [] => some []
  | r :: rest =>
      match parseFields r, parseRows rest with
      | some e, some es => some (e :: es)
      | _, _ => none

/-- Key set of the `images` dict in order of first occurrence, as the
comprehension `images.update(...)` creates it. -/
def uniqueKeys : List String → List String
  | [] => []
  | k :: rest => k :: (uniqueKeys rest).filter (fun k' => k' ≠ k)

/-- The grouping loop of `load_images`: each image file name maps to its
observations in source-row order. -/
def groupByImage (csv : List (String × Marker)) : Images :=
  (uniqueKeys (csv.map Prod.fst)).map
    (fun k => (k, (csv.filter (fun e => e.1 = k)).map Prod.snd))

/-- `load_images` on already-split CSV rows. -/
def load_images (rows : List (List String)) : Option Images :=
  (parseRows rows).map groupByImage

/-- `csv.reader` over an in-memory table: split the text into lines, each
line into fields at the delimiter. -/
def csvSplit (delim : Char) (text : String) : List (List String) :=
  if text = "" then []
  else (splitOnChar '\n' text.toList).map
    (fun line => (splitOnChar delim line).map List.asString)

/-- The `delimiters_options` dict of `processChunk`. -/
def delimiters_options (name : String) : Option Char :=
  if name = "space" then some ' '
  else if name = "tab" then some '\t'
  else if name = "comma" then some ','
  else if name = "colon" then some ':'
  else if name = "semicolon" then some ';'
  else none

/-- `load_viewids`: builds `views_lookup[basename(item.path)] = item.viewId`
over the records in order, so a duplicated basename keeps the last record's
view id. -/
def load_viewids (views : List ViewRec) : List (String × String) :=
  views.foldl (fun acc r => dictInsert acc (basename r.path) r.viewId) []

/-- `struct.pack('<Q', n)`: eight little-endian base-256 digits. -/
def packQ (n : Nat) : List Nat :=
  (List.range 8).map (fun i => n / 256 ^ i % 256)

/-- Little-endian reading of a byte list (the inverse reading direction of
`packQ`, used to state what the count field decodes to). -/
def decodeQ (bs : List Nat) : Nat :=
  bs.foldr (fun b acc => b + 256 * acc) 0

/-- Python `bytearray` index assignment `data[i] = v`: a negative index is
taken from the end; an index out of `[-len, len)` raises `IndexError`
(modelled as `none`). -/
def byteSet (data : List Nat) (i : Int) (v : Nat) : Option (List Nat) :=
  let j : Int := if i < 0 then i + data.length else i
  if 0 ≤ j ∧ j < data.length then some (data.set j.toNat v) else none

/-- One feature line: `" ".join((feat_x, feat_y, feat_size, "0" + "\n"))`. -/
def featLine (m : Marker) : String :=
  m.x ++ " " ++ m.y ++ " " ++ m.size ++ " " ++ "0" ++ "\n"

/-- The per-marker loop's effect on the view's inner feature dict:
`feature_lookup[viewid][tagid] = str(feat_idx)` with `feat_idx` counting
up from the given start. -/
def recordFeatures : InnerFL → List Marker → Nat → InnerFL
  | inner, [], _ => inner
  | inner, m :: rest, idx => recordFeatures (dictInsert inner m.tagid (toString idx)) rest (idx + 1)

/-- The comprehension initialising `feature_lookup` with an empty inner
dict for every view id of the catalog. -/
def initFL (lookup : List (String × String)) : FeatureLookup :=
  lookup.foldl (fun acc p => dictInsert acc p.2 []) []

/-- Replace the view's inner feature dict by the one extended with this
view's markers (indices restart at 0 per view). -/
def updateFL (fl : FeatureLookup) (vid : String) (markers : List Marker) : FeatureLookup :=
  dictInsert fl vid (recordFeatures ((lookupA fl vid).getD []) markers 0)

/-- What one iteration of the view loop of `write_describers` writes for
one view: the `.feat` lines and the `.desc` bytes. -/
structure ViewOutput where
  viewid : String
  featLines : List String
  descBytes : List Nat
deriving DecidableEq, Repr

/-- The files written for one view by `write_describers`.  With markers:
the 8-byte count, the feature lines, and, unless the hack is on, the
128-byte indicator with `data[marker[3]] = 255` for the loop's final
`marker` (the last of the group); out-of-range ids fail (`IndexError`).
Without markers: an 8-byte zero count and an empty feature file.  The
`getLast? = none` branch is unreachable from `load_images` output (its
groups are never empty); in Python it would read a stale or unbound loop
variable, so it is modelled as a failure. -/
def viewOut (hack : Bool) (images : Images) (img vid : String) : Option ViewOutput :=
  match lookupA images img with
  | some markers =>
      if hack then
        some { viewid := vid, featLines := markers.map featLine, descBytes := packQ markers.length }
      else
        match markers.getLast? with
        | some m =>
            (byteSet (List.replicate 128 0) m.tagid 255).map
              (fun data =>
                { viewid := vid, featLines := markers.map featLine
                  descBytes := packQ markers.length ++ data })
        | none => none
  | none => some { viewid := vid, featLines := [], descBytes := packQ 0 }

/-- One iteration of the view loop: append this view's files and record
its markers in `feature_lookup`. -/
def writeView (hack : Bool) (images : Images) (st : FeatureLookup × List ViewOutput)
    (img vid : String) : Option (FeatureLookup × List ViewOutput) :=
  (viewOut hack images img vid).map
    (fun out =>
      (match lookupA images img with
       | some markers => updateFL st.1 vid markers
       | none => st.1,
       st.2 ++ [out]))

/-- The view loop of `write_describers`, one catalog entry at a time; the
first failing view aborts the run. -/
def writeAll (hack : Bool) (images : Images) :
    FeatureLookup × List ViewOutput → List (String × String) → Option (FeatureLookup × List ViewOutput)
  | st, [] => some st
  | st, (img, vid) :: rest =>
      match writeView hack images st img vid with
      | some st' => writeAll hack images st' rest
      | none => none

/-- `write_describers`: iterate the catalog in order, returning the built
`feature_lookup` and the per-view files. -/
def write_describers (hack : Bool) (images : Images) (lookup : List (String × String)) :
    Option (FeatureLookup × List ViewOutput) :=
  writeAll hack images (initFL lookup, []) lookup

/-- `feature_lookup[viewid]`; every catalog view id is initialised to the
empty dict, so the default covers exactly Python's initialised state. -/
def innerFL (fl : FeatureLookup) (vid : String) : InnerFL :=
  (lookupA fl vid).getD []

/-- `match = tags_detected_A & tags_detected_B`.  Python returns a set;
the model fixes the iteration order to the first view's key insertion
order (the intersection's membership, and hence every claim here, does
not depend on that choice). -/
def sharedTags (fl : FeatureLookup) (a b : String) : List Int :=
  ((innerFL fl a).map Prod.fst).filter (fun t => t ∈ (innerFL fl b).map Prod.fst)

/-- The per-tag lines of one match block:
`" ".join((feature_index_A, feature_index_B))`. -/
def tagLines (fl : FeatureLookup) (a b : String) : List String :=
  (sharedTags fl a b).map
    (fun t => ((lookupA (innerFL fl a) t).getD "") ++ " " ++ ((lookupA (innerFL fl b) t).getD ""))

/-- The lines one pair contributes to `out_temp`: nothing when the tag
intersection is empty, otherwise header, the literal `"1"`, the type line
and one line per shared tag. -/
def blockFor (dtype : String) (fl : FeatureLookup) (a b : String) : List String :=
  if sharedTags fl a b = [] then []
  else (a ++ " " ++ b) :: "1" :: (dtype ++ " " ++ toString (sharedTags fl a b).length) ::
    tagLines fl a b

/-- The `out_temp` list of `make_matches_txt`: all blocks accumulated over
the pairs in order. -/
def matchLines (dtype : String) (image_pairs : List (String × String))
    (fl : FeatureLookup) : List String :=
  image_pairs.foldl (fun acc p => acc ++ blockFor dtype fl p.1 p.2) []

/-- `make_matches_txt`: join the accumulated lines with newlines; the file
is written unconditionally. -/
def make_matches_txt (dtype : String) (image_pairs : List (String × String))
    (fl : FeatureLookup) : String :=
  String.intercalate "\n" (matchLines dtype image_pairs fl)

/-- `itertools.combinations(_, 2)`: all index-ordered pairs. -/
def combinations2 {α : Type} : List α → List (α × α)
  | [] => []
  | x :: xs => xs.map (fun y => (x, y)) ++ combinations2 xs

/-- `processChunk` on in-memory inputs: resolve the delimiter, load the
view catalog and the marker table, write the per-view files, and emit the
match file exactly when the hack is enabled.  File-existence checks and
logging are outside the model; any stage failure aborts the run. -/
def processChunk (hack : Bool) (dtype delimName : String) (views : List ViewRec)
    (markerText : String) : Option (List ViewOutput × Option String) :=
  match delimiters_options delimName with
  | none => none
  | some delim =>
      let lookup := load_viewids views
      let image_pairs := combinations2 (lookup.map Prod.snd)
      match load_images (csvSplit delim markerText) with
      | none => none
      | some images =>
          match write_describers hack images lookup with
          | none => none
          | some (fl, outs) =>
              some (outs, if hack then some (make_matches_txt dtype image_pairs fl) else none)

/-! ## Association-list (Python dict) lemmas -/

theorem lookupA_dictInsert {α β : Type} [DecidableEq α] (d : List (α × β)) (k k' : α) (v : β) :
    lookupA (dictInsert d k v) k' = if k = k' then some v else lookupA d k' := by
  induction d with
  | nil => simp [dictInsert, lookupA]
  | cons p rest ih =>
      obtain ⟨k₀, v₀⟩ := p
      by_cases h : k₀ = k
      · subst h
        simp only [dictInsert, if_pos rfl, lookupA]
        by_cases hh : k₀ = k' <;> simp [hh]
      · simp only [dictInsert, if_neg h, lookupA, ih]
        by_cases hh : k₀ = k' <;> by_cases hk : k = k'
        · exact absurd (hh.trans hk.symm) h
        · simp [hh, hk]
        · simp [hh, hk]
        · simp [hh, hk]

theorem keys_dictInsert {α β : Type} [DecidableEq α] (d : List (α × β)) (k : α) (v : β) :
    (dictInsert d k v).map Prod.fst =
      if k ∈ d.map Prod.fst then d.map Prod.fst else d.map Prod.fst ++ [k] := by
  induction d with
  | nil => simp [dictInsert]
  | cons p rest ih =>
      obtain ⟨k₀, v₀⟩ := p
      by_cases h : k₀ = k
      · subst h
        simp [dictInsert]
      · simp only [dictInsert, if_neg h, List.map_cons]
        have hne : ¬(k = k₀) := fun hh => h hh.symm
        by_cases hm : k ∈ rest.map Prod.fst
        · simp [hm, hne, ih]
        · simp [hm, hne, ih]

/-! ## Byte-level lemmas -/

theorem packQ_length (n : Nat) : (packQ n).length = 8 := by simp [packQ]

theorem mod_mul_split (n a b : Nat) (ha : 0 < a) :
    n % (a * b) = n % a + a * (n / a % b) := by
  rcases Nat.eq_zero_or_pos b with hb | hb
  · subst hb
    simp only [Nat.mul_zero, Nat.mod_zero]
    exact (Nat.mod_add_div n a).symm
  · have h1 : n % a < a := Nat.mod_lt _ ha
    have h2 : n / a % b < b := Nat.mod_lt _ hb
    have key : n % a + a * (n / a % b) < a * b := by
      calc n % a + a * (n / a % b) < a + a * (n / a % b) := by omega
        _ = a * (n / a % b + 1) := by ring
        _ ≤ a * b := Nat.mul_le_mul_left a h2
    have expand : n = n % a + a * (n / a % b) + a * b * (n / a / b) := by
      conv_lhs => rw [← Nat.mod_add_div n a, ← Nat.mod_add_div (n / a) b]
      ring
    conv_lhs => rw [expand]
    rw [Nat.add_mul_mod_self_left, Nat.mod_eq_of_lt key]

theorem decodeQ_range (k n : Nat) :
    decodeQ ((List.range k).map (fun i => n / 256 ^ i % 256)) = n % 256 ^ k := by
  induction k generalizing n with
  | zero => simp [decodeQ, Nat.mod_one]
  | succ k ih =>
      rw [List.range_succ_eq_map]
      simp only [List.map_cons, List.map_map, Function.comp_def, Nat.succ_eq_add_one,
        pow_zero, Nat.div_one, pow_succ', ← Nat.div_div_eq_div_mul, decodeQ, List.foldr_cons]
      have ih' := ih (n / 256)
      simp only [decodeQ] at ih'
      rw [ih']
      exact (mod_mul_split n 256 (256 ^ k) (by norm_num)).symm

theorem decodeQ_packQ (n : Nat) (h : n < 2 ^ 64) : decodeQ (packQ n) = n := by
  rw [packQ, decodeQ_range]
  have : (256 : Nat) ^ 8 = 2 ^ 64 := by norm_num
  rw [this, Nat.mod_eq_of_lt h]

theorem byteSet_nonneg (i : Int) (h0 : 0 ≤ i) (h : i < 128) :
    byteSet (List.replicate 128 0) i 255 = some ((List.replicate 128 0).set i.toNat 255) := by
  simp only [byteSet, List.length_replicate]
  split_ifs <;> first | (exfalso; omega) | rfl

theorem byteSet_big (i : Int) (h : 128 ≤ i) :
    byteSet (List.replicate 128 0) i 255 = none := by
  simp only [byteSet, List.length_replicate]
  split_ifs <;> first | (exfalso; omega) | rfl

theorem byteSet_neg (i : Int) (h0 : -128 ≤ i) (h : i < 0) :
    byteSet (List.replicate 128 0) i 255 = some ((List.replicate 128 0).set (i + 128).toNat 255) := by
  simp only [byteSet, List.length_replicate]
  split_ifs <;> first | (exfalso; omega) | rfl

theorem count_set_replicate (n j : Nat) (h : j < n) :
    (((List.replicate n (0 : Nat)).set j 255).count 255) = 1 := by
  induction n generalizing j with
  | zero => omega
  | succ n ih =>
      rw [List.replicate_succ]
      cases j with
      | zero =>
          simp [List.count_cons, List.count_replicate]
      | succ j =>
          simp only [List.set]
          rw [List.count_cons, ih j (by omega)]
          simp

theorem getD_set_self (l : List Nat) (j v : Nat) (h : j < l.length) :
    (l.set j v).getD j 0 = v := by
  induction l generalizing j with
  | nil => simp at h
  | cons a l ih =>
      cases j with
      | zero => simp [List.set, List.getD]
      | succ j =>
          simp only [List.set, List.getD] at *
          exact ih j (by simpa using h)

theorem getD_drop_packQ (data : List Nat) (n j : Nat) :
    ((packQ n ++ data).drop 8).getD j 0 = data.getD j 0 := by
  have h8 : (packQ n).length = 8 := packQ_length n
  rw [← h8, List.drop_left]

/-! ## Grouping lemmas for `load_images` -/

theorem length_filter_split {α : Type} (l : List α) (p : α → Bool) :
    (l.filter p).length + (l.filter (fun a => !(p a))).length = l.length := by
  induction l with
  | nil => rfl
  | cons a l ih =>
      cases h : p a <;> simp [List.filter_cons, h] <;> omega

theorem mem_uniqueKeys (l : List String) (a : String) : a ∈ uniqueKeys l ↔ a ∈ l := by
  induction l with
  | nil => simp [uniqueKeys]
  | cons k rest ih =>
      simp only [uniqueKeys, List.mem_cons, List.mem_filter, ih]
      by_cases h : a = k
      · simp [h]
      · simp [h]

theorem nodup_uniqueKeys (l : List String) : (uniqueKeys l).Nodup := by
  induction l with
  | nil => exact List.nodup_nil
  | cons k rest ih =>
      rw [uniqueKeys, List.nodup_cons]
      refine ⟨?_, ih.filter _⟩
      intro hmem
      have := (List.mem_filter.mp hmem).2
      simp at this

theorem sum_filter_lengths {β : Type} (keys : List String) (csv : List (String × β))
    (hnd : keys.Nodup) (hcov : ∀ e ∈ csv, e.1 ∈ keys) :
    ((keys.map (fun k => (csv.filter (fun e => e.1 = k)).length)).sum) = csv.length := by
  induction keys generalizing csv with
  | nil =>
      cases csv with
      | nil => rfl
      | cons e rest => exact absurd (hcov e (List.mem_cons_self e rest)) (List.not_mem_nil _)
  | cons k ks ih =>
      rw [List.map_cons, List.sum_cons]
      have hnd' := List.nodup_cons.mp hnd
      set csv' := csv.filter (fun e => !(decide (e.1 = k))) with hcsv'
      have hcov' : ∀ e ∈ csv', e.1 ∈ ks := by
        intro e he
        rw [hcsv', List.mem_filter] at he
        rcases List.mem_cons.mp (hcov e he.1) with hk | hks
        · exfalso
          have := he.2
          simp [hk] at this
        · exact hks
      have htail : ks.map (fun k2 => (csv.filter (fun e => e.1 = k2)).length)
          = ks.map (fun k2 => (csv'.filter (fun e => e.1 = k2)).length) := by
        apply List.map_congr_left
        intro k2 hk2
        have hkk : k2 ≠ k := by
          intro hh
          exact hnd'.1 (hh ▸ hk2)
        have heq : csv'.filter (fun e => e.1 = k2) = csv.filter (fun e => e.1 = k2) := by
          rw [hcsv', List.filter_filter]
          apply List.filter_congr
          intro e _
          by_cases he : e.1 = k2
          · simp [he, hkk]
          · simp [he]
        rw [heq]
      rw [htail, ih csv' hnd'.2 hcov']
      have hsplit := length_filter_split csv (fun e => decide (e.1 = k))
      rw [hcsv']
      omega

theorem groupByImage_sum (csv : List (String × Marker)) :
    ((groupByImage csv).map (fun g => g.2.length)).sum = csv.length := by
  rw [groupByImage, List.map_map]
  have hfun : ((fun (g : String × List Marker) => g.2.length) ∘
      (fun k => (k, (csv.filter (fun e => e.1 = k)).map Prod.snd))) =
      (fun k => (csv.filter (fun e => e.1 = k)).length) := by
    funext k
    simp [Function.comp]
  rw [hfun]
  exact sum_filter_lengths (uniqueKeys (csv.map Prod.fst)) csv (nodup_uniqueKeys _)
    (fun e he => (mem_uniqueKeys _ _).mpr (List.mem_map_of_mem Prod.fst he))

/-! ## Row-parsing lemmas -/

theorem parseRows_cons (r : List String) (rest : List (List String))
    (csv : List (String × Marker)) (h : parseRows (r :: rest) = some csv) :
    ∃ e es, parseFields r = some e ∧ parseRows rest = some es ∧ csv = e :: es := by
  simp only [parseRows] at h
  cases hr : parseFields r with
  | none => rw [hr] at h; simp at h
  | some e =>
      cases hrest : parseRows rest with
      | none => rw [hr, hrest] at h; simp at h
      | some es =>
          rw [hr, hrest] at h
          exact ⟨e, es, rfl, rfl, (Option.some.inj h).symm⟩

theorem parseRows_forall2 (rows : List (List String)) (csv : List (String × Marker))
    (h : parseRows rows = some csv) :
    List.Forall₂ (fun fs e => parseFields fs = some e) rows csv := by
  induction rows generalizing csv with
  | nil =>
      simp only [parseRows, Option.some.injEq] at h
      subst h
      exact List.Forall₂.nil
  | cons r rest ih =>
      obtain ⟨e, es, hr, hrest, rfl⟩ := parseRows_cons r rest csv h
      exact List.Forall₂.cons hr (ih es hrest)

theorem parseRows_mem (rows : List (List String)) (csv : List (String × Marker))
    (h : parseRows rows = some csv) (e : String × Marker) (he : e ∈ csv) :
    ∃ fs, fs ∈ rows ∧ parseFields fs = some e := by
  induction rows generalizing csv with
  | nil =>
      simp only [parseRows, Option.some.injEq] at h
      subst h
      simp at he
  | cons r rest ih =>
      obtain ⟨e2, es, hr, hrest, rfl⟩ := parseRows_cons r rest csv h
      rcases List.mem_cons.mp he with rfl | hes
      · exact ⟨r, List.mem_cons_self r rest, hr⟩
      · obtain ⟨fs, hfs, hp⟩ := ih es hrest hes
        exact ⟨fs, List.mem_cons_of_mem r hfs, hp⟩

theorem parseFields_shape (fs : List String) (e : String × Marker)
    (h : parseFields fs = some e) :
    ∃ f0 f1 f2 f3 f4 rest, fs = f0 :: f1 :: f2 :: f3 :: f4 :: rest ∧
      e.1 = f2 ∧ e.2.x = f0 ∧ e.2.y = f1 ∧ e.2.size = f4 ∧ parseInt f3 = some e.2.tagid := by
  rcases fs with _ | ⟨f0, _ | ⟨f1, _ | ⟨f2, _ | ⟨f3, _ | ⟨f4, rest⟩⟩⟩⟩⟩ <;>
    simp only [parseFields] at h
  all_goals try exact Option.noConfusion h
  case cons.cons.cons.cons.cons =>
    rw [Option.map_eq_some'] at h
    obtain ⟨t, ht, he⟩ := h
    subst he
    exact ⟨f0, f1, f2, f3, f4, rest, rfl, rfl, rfl, rfl, rfl, ht⟩

/-! ## `load_viewids` lemmas -/

theorem find?_append_singleton {α : Type} (l : List α) (v : α) (p : α → Bool) :
    (l ++ [v]).find? p =
      match l.find? p with
      | some r => some r
      | none => if p v then some v else none := by
  induction l with
  | nil =>
      cases h : p v
      · simp [List.find?, h]
      · simp [List.find?, h]
  | cons a l ih =>
      rw [List.cons_append]
      cases h : p a
      · simp only [List.find?, h]
        exact ih
      · simp only [List.find?, h]

theorem lookupA_foldl_viewids (views : List ViewRec) (d : List (String × String)) (b : String) :
    lookupA (views.foldl (fun acc r => dictInsert acc (basename r.path) r.viewId) d) b =
      match views.reverse.find? (fun r => basename r.path = b) with
      | some r => some r.viewId
      | none => lookupA d b := by
  induction views generalizing d with
  | nil => simp [List.find?]
  | cons v vs ih =>
      rw [List.foldl_cons, ih, List.reverse_cons, find?_append_singleton]
      cases hf : vs.reverse.find? (fun r => decide (basename r.path = b)) with
      | some r => rfl
      | none =>
          rw [lookupA_dictInsert]
          by_cases hb : basename v.path = b
          · simp [hb]
          · simp [hb]

theorem keys_foldl_viewids_nodup (views : List ViewRec) (d : List (String × String))
    (hnd : (d.map Prod.fst).Nodup) :
    ((views.foldl (fun acc r => dictInsert acc (basename r.path) r.viewId) d).map Prod.fst).Nodup := by
  induction views generalizing d with
  | nil => exact hnd
  | cons v vs ih =>
      rw [List.foldl_cons]
      apply ih
      rw [keys_dictInsert]
      by_cases hm : basename v.path ∈ d.map Prod.fst
      · simpa [hm] using hnd
      · rw [if_neg hm, List.nodup_append]
        refine ⟨hnd, List.nodup_singleton _, ?_⟩
        intro a ha hb
        rw [List.mem_singleton] at hb
        subst hb
        exact hm ha

theorem keys_foldl_viewids_mem (views : List ViewRec) (d : List (String × String)) (b : String) :
    b ∈ (views.foldl (fun acc r => dictInsert acc (basename r.path) r.viewId) d).map Prod.fst ↔
      b ∈ d.map Prod.fst ∨ b ∈ views.map (fun r => basename r.path) := by
  induction views generalizing d with
  | nil => simp
  | cons v vs ih =>
      rw [List.foldl_cons, ih, keys_dictInsert]
      by_cases hm : basename v.path ∈ d.map Prod.fst
      · rw [if_pos hm]
        simp only [List.map_cons, List.mem_cons]
        constructor
        · rintro (h | h)
          · exact Or.inl h
          · exact Or.inr (Or.inr h)
        · rintro (h | rfl | h)
          · exact Or.inl h
          · exact Or.inl hm
          · exact Or.inr h
      · rw [if_neg hm]
        simp only [List.mem_append, List.mem_singleton, List.map_cons, List.mem_cons]
        tauto

theorem load_viewids_length (views : List ViewRec) :
    (load_viewids views).length = (views.map (fun r => basename r.path)).dedup.length := by
  have hnd : ((load_viewids views).map Prod.fst).Nodup :=
    keys_foldl_viewids_nodup views [] (by simp)
  have hmem : ∀ b, b ∈ (load_viewids views).map Prod.fst ↔
      b ∈ views.map (fun r => basename r.path) := by
    intro b
    rw [load_viewids, keys_foldl_viewids_mem]
    simp
  have h1 : (load_viewids views).length = ((load_viewids views).map Prod.fst).length :=
    (List.length_map _ _).symm
  rw [h1, ← List.toFinset_card_of_nodup hnd]
  have hset : ((load_viewids views).map Prod.fst).toFinset =
      (views.map (fun r => basename r.path)).toFinset := by
    ext b
    simp only [List.mem_toFinset]
    exact hmem b
  rw [hset, List.card_toFinset]

/-! ## `recordFeatures` and `write_describers` lemmas -/

theorem lookupA_recordFeatures (inner : InnerFL) (markers : List Marker) (s : Nat) (t : Int) :
    lookupA (recordFeatures inner markers s) t =
      match (List.filter (fun p => p.2.tagid = t) (List.enumFrom s markers)).getLast? with
      | some p => some (toString p.1)
      | none => lookupA inner t := by
  induction markers generalizing inner s with
  | nil => simp [recordFeatures, List.enumFrom, List.filter]
  | cons m rest ih =>
      rw [recordFeatures, ih]
      rw [show List.enumFrom s (m :: rest) = (s, m) :: List.enumFrom (s + 1) rest from rfl]
      rw [List.filter_cons]
      by_cases hm : m.tagid = t
      · simp only [hm, decide_True, if_true]
        cases hl : List.filter (fun p => decide (p.2.tagid = t)) (List.enumFrom (s + 1) rest) with
        | nil =>
            rw [lookupA_dictInsert]
            simp [hm]
        | cons q qs =>
            rw [List.getLast?_cons_cons, List.getLast?_cons]
      · rw [if_neg (show ¬(decide (m.tagid = t) = true) by simp [hm])]
        cases hl : (List.filter (fun p => decide (p.2.tagid = t)) (List.enumFrom (s + 1) rest)).getLast? with
        | some q => rfl
        | none =>
            rw [lookupA_dictInsert, if_neg hm]

theorem writeAll_forall2 (hack : Bool) (images : Images)
    (entries : List (String × String)) (st : FeatureLookup × List ViewOutput)
    (res : FeatureLookup × List ViewOutput) (h : writeAll hack images st entries = some res) :
    ∃ outs, res.2 = st.2 ++ outs ∧
      List.Forall₂ (fun (p : String × String) out => viewOut hack images p.1 p.2 = some out)
        entries outs := by
  induction entries generalizing st with
  | nil =>
      rw [writeAll] at h
      refine ⟨[], ?_, List.Forall₂.nil⟩
      rw [← Option.some.inj h]
      simp
  | cons p rest ih =>
      obtain ⟨img, vid⟩ := p
      rw [writeAll] at h
      cases hv : writeView hack images st img vid with
      | none => rw [hv] at h; exact Option.noConfusion h
      | some st2 =>
          rw [hv] at h
          obtain ⟨outs, houts, hf⟩ := ih st2 h
          rw [writeView] at hv
          cases ho : viewOut hack images img vid with
          | none => rw [ho] at hv; exact Option.noConfusion hv
          | some out =>
              rw [ho, Option.map_some'] at hv
              have hst2 : st2.2 = st.2 ++ [out] := by
                rw [← Option.some.inj hv]
              refine ⟨out :: outs, ?_, List.Forall₂.cons ho hf⟩
              rw [houts, hst2, List.append_assoc, List.singleton_append]

theorem write_describers_forall2 (hack : Bool) (images : Images)
    (lookup : List (String × String)) (fl : FeatureLookup) (outs : List ViewOutput)
    (h : write_describers hack images lookup = some (fl, outs)) :
    List.Forall₂ (fun (p : String × String) out => viewOut hack images p.1 p.2 = some out)
      lookup outs := by
  obtain ⟨outs2, houts, hf⟩ :=
    writeAll_forall2 hack images lookup (initFL lookup, []) (fl, outs) h
  simp only [List.nil_append] at houts
  rwa [houts]

/-! ## Further dict and list lemmas for the claims -/

theorem lookupA_eq_none {α β : Type} [DecidableEq α] (d : List (α × β)) (k : α) :
    lookupA d k = none ↔ k ∉ d.map Prod.fst := by
  induction d with
  | nil => simp [lookupA]
  | cons p rest ih =>
      obtain ⟨k0, v0⟩ := p
      by_cases h : k0 = k
      · simp [lookupA, h]
      · have h2 : k ≠ k0 := fun hh => h hh.symm
        simp [lookupA, h, h2, ih]

theorem keys_groupByImage (csv : List (String × Marker)) :
    (groupByImage csv).map Prod.fst = uniqueKeys (csv.map Prod.fst) := by
  rw [groupByImage, List.map_map]
  have hfun : (Prod.fst ∘ (fun k => (k, (csv.filter (fun e => e.1 = k)).map Prod.snd))) =
      (fun k : String => k) := by
    funext k
    rfl
  rw [hfun, List.map_id']

theorem mem_of_getLast?_eq {α : Type} (l : List α) (a : α) (h : l.getLast? = some a) :
    a ∈ l := by
  induction l with
  | nil => exact Option.noConfusion h
  | cons b l ih =>
      cases l with
      | nil =>
          rw [List.getLast?_singleton] at h
          have hba := Option.some.inj h
          subst hba
          exact List.mem_cons_self _ _
      | cons c l2 =>
          rw [List.getLast?_cons_cons] at h
          exact List.mem_cons_of_mem b (ih h)

theorem matchLines_nil (dtype : String) (fl : FeatureLookup)
    (pairs : List (String × String)) (hall : ∀ p ∈ pairs, sharedTags fl p.1 p.2 = []) :
    matchLines dtype pairs fl = [] := by
  rw [matchLines]
  have gen : ∀ (ps : List (String × String)) (acc : List String),
      (∀ p ∈ ps, blockFor dtype fl p.1 p.2 = []) →
      ps.foldl (fun acc2 p => acc2 ++ blockFor dtype fl p.1 p.2) acc = acc := by
    intro ps
    induction ps with
    | nil => intro acc _; rfl
    | cons q qs ih =>
        intro acc hbl
        rw [List.foldl_cons, hbl q (List.mem_cons_self _ _), List.append_nil]
        exact ih acc (fun p hp => hbl p (List.mem_cons_of_mem _ hp))
  apply gen
  intro p hp
  rw [blockFor, if_pos (hall p hp)]

/-- Evaluation of `viewOut` for a view absent from the marker table. -/
theorem viewOut_none_eq (hack : Bool) (images : Images) (img vid : String)
    (hm : lookupA images img = none) :
    viewOut hack images img vid =
      some { viewid := vid, featLines := [], descBytes := packQ 0 } := by
  simp only [viewOut, hm]

theorem viewOut_some_true (images : Images) (img vid : String) (markers : List Marker)
    (hm : lookupA images img = some markers) :
    viewOut true images img vid =
      some { viewid := vid, featLines := markers.map featLine,
             descBytes := packQ markers.length } := by
  simp only [viewOut, hm, if_true]

theorem viewOut_some_false (images : Images) (img vid : String) (markers : List Marker)
    (m : Marker) (hm : lookupA images img = some markers) (hl : markers.getLast? = some m) :
    viewOut false images img vid =
      (byteSet (List.replicate 128 0) m.tagid 255).map
        (fun data => { viewid := vid, featLines := markers.map featLine,
                       descBytes := packQ markers.length ++ data }) := by
  simp only [viewOut, hm, hl, Bool.false_eq_true, if_false]

/-! ## Claims -/

set_option maxRecDepth 16000

/-- Claim C1 (as stated, refuted here): the claim says any marker
observation with `markerId ≥ 128` is a fatal `IndexError` in non-bypass
mode.  Counterexample: a view whose first observation has id 200 but whose
last observation has id 0; the run completes (`isSome`) because only the
loop's final `marker` indexes the 128-byte array. -/
theorem C1_counterexample :
    (∃ images markers mk,
      load_images (csvSplit ',' "10,20,a.jpg,200,5\n30,40,a.jpg,0,5") = some images ∧
      lookupA images "a.jpg" = some markers ∧ mk ∈ markers ∧ 128 ≤ mk.tagid) ∧
    (processChunk false "cctag3" "comma" [{ path := "a.jpg", viewId := "1" }]
      "10,20,a.jpg,200,5\n30,40,a.jpg,0,5").isSome = true := by
  constructor
  · exact ⟨[("a.jpg", [{ x := "10", y := "20", size := "5", tagid := 200 },
                       { x := "30", y := "40", size := "5", tagid := 0 }])],
      [{ x := "10", y := "20", size := "5", tagid := 200 },
       { x := "30", y := "40", size := "5", tagid := 0 }],
      { x := "10", y := "20", size := "5", tagid := 200 },
      by decide, by decide, by decide, by decide⟩
  · decide

/-- Claim C1, amended: in non-bypass mode the `IndexError` is raised
exactly from the view group's last observation: if the last observation's
markerId is ≥ 128 the view fails; a last markerId of 127 succeeds; and in
bypass mode the view always succeeds regardless of ids. -/
theorem C1_amended (images : Images) (img vid : String) (markers : List Marker) (m : Marker)
    (hm : lookupA images img = some markers) (hl : markers.getLast? = some m) :
    (128 ≤ m.tagid → viewOut false images img vid = none) ∧
    (m.tagid = 127 → (viewOut false images img vid).isSome = true) ∧
    (viewOut true images img vid).isSome = true := by
  refine ⟨?_, ?_, ?_⟩
  · intro h
    rw [viewOut_some_false images img vid markers m hm hl, byteSet_big m.tagid h,
      Option.map_none']
  · intro h
    have hbs := byteSet_nonneg m.tagid (by omega) (by omega)
    rw [viewOut_some_false images img vid markers m hm hl, hbs, Option.map_some']
    rfl
  · rw [viewOut_some_true images img vid markers hm]
    rfl

/-- Claim C1, witness for the amended statement at concrete inputs:
last id 128 fails non-bypass, last id 127 succeeds non-bypass, id 128
succeeds in bypass mode. -/
theorem C1_witness :
    viewOut false [("a.jpg", [{ x := "1", y := "2", size := "5", tagid := 128 }])] "a.jpg" "1"
      = none ∧
    (viewOut false [("a.jpg", [{ x := "1", y := "2", size := "5", tagid := 127 }])] "a.jpg" "1").isSome
      = true ∧
    (viewOut true [("a.jpg", [{ x := "1", y := "2", size := "5", tagid := 128 }])] "a.jpg" "1").isSome
      = true :=
  ⟨(C1_amended [("a.jpg", [{ x := "1", y := "2", size := "5", tagid := 128 }])] "a.jpg" "1"
      [{ x := "1", y := "2", size := "5", tagid := 128 }]
      { x := "1", y := "2", size := "5", tagid := 128 } (by decide) (by decide)).1 (by decide),
   (C1_amended [("a.jpg", [{ x := "1", y := "2", size := "5", tagid := 127 }])] "a.jpg" "1"
      [{ x := "1", y := "2", size := "5", tagid := 127 }]
      { x := "1", y := "2", size := "5", tagid := 127 } (by decide) (by decide)).2.1 (by decide),
   (C1_amended [("a.jpg", [{ x := "1", y := "2", size := "5", tagid := 128 }])] "a.jpg" "1"
      [{ x := "1", y := "2", size := "5", tagid := 128 }]
      { x := "1", y := "2", size := "5", tagid := 128 } (by decide) (by decide)).2.2⟩

/-- Claim C2: for a view with markers, bypass disabled and every markerId
in 0..127, the descriptor file is exactly 8 + 128 bytes: the little-endian
64-bit count followed by a zero-filled 128-byte block whose single 255
byte sits at the last marker's id. -/
theorem C2_thm (images : Images) (img vid : String) (markers : List Marker) (m : Marker)
    (hm : lookupA images img = some markers) (hl : markers.getLast? = some m)
    (hrange : ∀ mk ∈ markers, 0 ≤ mk.tagid ∧ mk.tagid ≤ 127)
    (hlen : markers.length < 2 ^ 64) :
    ∃ out, viewOut false images img vid = some out ∧
      out.descBytes = packQ markers.length ++ (List.replicate 128 0).set m.tagid.toNat 255 ∧
      out.descBytes.length = 8 + 128 ∧
      decodeQ (out.descBytes.take 8) = markers.length ∧
      (out.descBytes.drop 8).count 255 = 1 ∧
      (out.descBytes.drop 8).getD m.tagid.toNat 0 = 255 := by
  have hmem : m ∈ markers := mem_of_getLast?_eq markers m hl
  have hr := hrange m hmem
  have hbs := byteSet_nonneg m.tagid hr.1 (by omega)
  have hidx : m.tagid.toNat < 128 := by omega
  refine ⟨{ viewid := vid, featLines := markers.map featLine,
            descBytes := packQ markers.length ++ (List.replicate 128 0).set m.tagid.toNat 255 },
          ?_, rfl, ?_, ?_, ?_, ?_⟩
  · rw [viewOut_some_false images img vid markers m hm hl, hbs, Option.map_some']
  · simp [packQ_length]
  · rw [show (8 : Nat) = (packQ markers.length).length from (packQ_length _).symm,
      List.take_left, decodeQ_packQ _ hlen]
  · rw [show (8 : Nat) = (packQ markers.length).length from (packQ_length _).symm,
      List.drop_left]
    exact count_set_replicate 128 m.tagid.toNat hidx
  · rw [show (8 : Nat) = (packQ markers.length).length from (packQ_length _).symm,
      List.drop_left]
    exact getD_set_self _ _ _ (by simpa using hidx)

/-- Claim C2, witness: a one-marker view with id 7. -/
theorem C2_witness :
    ∃ out, viewOut false [("a.jpg", [{ x := "10", y := "20", size := "5", tagid := 7 }])]
        "a.jpg" "1" = some out ∧
      out.descBytes = packQ 1 ++ (List.replicate 128 0).set 7 255 ∧
      out.descBytes.length = 8 + 128 ∧
      decodeQ (out.descBytes.take 8) = 1 ∧
      (out.descBytes.drop 8).count 255 = 1 ∧
      (out.descBytes.drop 8).getD 7 0 = 255 :=
  C2_thm [("a.jpg", [{ x := "10", y := "20", size := "5", tagid := 7 }])] "a.jpg" "1"
    [{ x := "10", y := "20", size := "5", tagid := 7 }]
    { x := "10", y := "20", size := "5", tagid := 7 }
    (by decide) (by decide) (by decide) (by decide)

/-- Claim C3: the concrete two-image scenario with bypass enabled emits a
match file whose lines are exactly the block `1 2`, `1`, `cctag3 1`,
`0 0`, and the file content is their newline join. -/
theorem C3_thm :
    ∃ res, processChunk true "cctag3" "comma"
        [{ path := "imgA.jpg", viewId := "1" }, { path := "imgB.jpg", viewId := "2" }]
        "10,20,imgA.jpg,3,5\n30,40,imgB.jpg,3,5" = some res ∧
      res.2 = some "1 2\n1\ncctag3 1\n0 0" ∧
      ∃ pre post,
        matchLines "cctag3" [("1", "2")]
          [("1", [((3 : Int), "0")]), ("2", [((3 : Int), "0")])] =
          pre ++ ["1 2", "1", "cctag3 1", "0 0"] ++ post := by
  refine ⟨_, rfl, by decide, [], [], by decide⟩

/-- Claim C4: a catalogued view with no markers still gets both files:
an empty feature file and a descriptor holding only the 8-byte count 0. -/
theorem C4_thm (hack : Bool) (rows : List (List String)) (images : Images) (img vid : String)
    (hp : load_images rows = some images)
    (hno : img ∉ rows.map (fun fs => fs.getD 2 "")) :
    viewOut hack images img vid =
      some { viewid := vid, featLines := [], descBytes := packQ 0 } ∧
    (packQ 0).length = 8 ∧ decodeQ (packQ 0) = 0 ∧
    (∀ (lookup : List (String × String)) (fl : FeatureLookup) (outs : List ViewOutput)
        (i : Nat) (hi : i < lookup.length),
      write_describers hack images lookup = some (fl, outs) →
      lookup.get ⟨i, hi⟩ = (img, vid) →
      ∃ hj : i < outs.length,
        outs.get ⟨i, hj⟩ = { viewid := vid, featLines := [], descBytes := packQ 0 }) := by
  rw [load_images, Option.map_eq_some'] at hp
  obtain ⟨csv, hcsv, himg⟩ := hp
  have hnone : lookupA images img = none := by
    rw [← himg, lookupA_eq_none, keys_groupByImage]
    intro hmem
    rw [mem_uniqueKeys] at hmem
    obtain ⟨e, he, heq⟩ := List.mem_map.mp hmem
    obtain ⟨fs, hfs, hpf⟩ := parseRows_mem rows csv hcsv e he
    obtain ⟨f0, f1, f2, f3, f4, rest2, hshape, he1, _, _, _, _⟩ := parseFields_shape fs e hpf
    apply hno
    rw [List.mem_map]
    refine ⟨fs, hfs, ?_⟩
    rw [hshape]
    have : f2 = img := he1 ▸ heq
    exact this
  have hview : viewOut hack images img vid =
      some { viewid := vid, featLines := [], descBytes := packQ 0 } :=
    viewOut_none_eq hack images img vid hnone
  refine ⟨hview, packQ_length 0, decodeQ_packQ 0 (by norm_num), ?_⟩
  intro lookup fl outs i hi hw hentry
  have hf2 := write_describers_forall2 hack images lookup fl outs hw
  obtain ⟨hlen2, hget⟩ := List.forall₂_iff_get.mp hf2
  have hj : i < outs.length := hlen2 ▸ hi
  refine ⟨hj, ?_⟩
  have := hget i hi hj
  rw [hentry] at this
  rw [hview] at this
  exact (Option.some.inj this).symm

/-- Claim C4, witness: view `a.jpg` absent from a one-row marker table. -/
theorem C4_witness :
    viewOut false [("b.jpg", [{ x := "10", y := "20", size := "5", tagid := 3 }])] "a.jpg" "7" =
      some { viewid := "7", featLines := [], descBytes := packQ 0 } ∧
    (packQ 0).length = 8 ∧ decodeQ (packQ 0) = 0 ∧
    (∀ (lookup : List (String × String)) (fl : FeatureLookup) (outs : List ViewOutput)
        (i : Nat) (hi : i < lookup.length),
      write_describers false [("b.jpg", [{ x := "10", y := "20", size := "5", tagid := 3 }])]
          lookup = some (fl, outs) →
      lookup.get ⟨i, hi⟩ = ("a.jpg", "7") →
      ∃ hj : i < outs.length,
        outs.get ⟨i, hj⟩ = { viewid := "7", featLines := [], descBytes := packQ 0 }) :=
  C4_thm false [["10", "20", "b.jpg", "3", "5"]]
    [("b.jpg", [{ x := "10", y := "20", size := "5", tagid := 3 }])] "a.jpg" "7"
    (by decide) (by decide)

/-- Claim C5: grouping preserves everything: the groups partition the R
parsed rows (sizes sum to R), each group lists its rows in source order
(`filter` keeps order), and each row keeps x, y, size as raw text while
markerId is parsed as an integer. -/
theorem C5_thm (rows : List (List String)) (csv : List (String × Marker)) (images : Images)
    (hp : parseRows rows = some csv) (hi : load_images rows = some images) :
    images = groupByImage csv ∧
    (images.map (fun g => g.2.length)).sum = rows.length ∧
    (∀ g ∈ images, g.2 = (csv.filter (fun e => e.1 = g.1)).map Prod.snd) ∧
    List.Forall₂
      (fun fs e => ∃ f0 f1 f2 f3 f4 rest, fs = f0 :: f1 :: f2 :: f3 :: f4 :: rest ∧
        e.1 = f2 ∧ e.2.x = f0 ∧ e.2.y = f1 ∧ e.2.size = f4 ∧ parseInt f3 = some e.2.tagid)
      rows csv := by
  have himg : images = groupByImage csv := by
    rw [load_images, hp] at hi
    exact (Option.some.inj hi).symm
  subst himg
  refine ⟨rfl, ?_, ?_, ?_⟩
  · rw [groupByImage_sum csv]
    exact ((parseRows_forall2 rows csv hp).length_eq).symm
  · intro g hg
    rw [groupByImage] at hg
    obtain ⟨k, hk, rfl⟩ := List.mem_map.mp hg
    rfl
  · exact (parseRows_forall2 rows csv hp).imp (fun fs e hfe => parseFields_shape fs e hfe)

/-- Claim C5, witness: a two-row table with distinct images. -/
theorem C5_witness :
    ([("a.jpg", [{ x := "10", y := "20", size := "5", tagid := 3 }]),
      ("b.jpg", [{ x := "30", y := "40", size := "5", tagid := 4 }])] : Images) =
      groupByImage [("a.jpg", { x := "10", y := "20", size := "5", tagid := 3 }),
        ("b.jpg", { x := "30", y := "40", size := "5", tagid := 4 })] ∧
    (([("a.jpg", [{ x := "10", y := "20", size := "5", tagid := 3 }]),
       ("b.jpg", [{ x := "30", y := "40", size := "5", tagid := 4 }])] : Images).map
      (fun g => g.2.length)).sum = 2 := by
  have h := C5_thm [["10", "20", "a.jpg", "3", "5"], ["30", "40", "b.jpg", "4", "5"]]
    [("a.jpg", { x := "10", y := "20", size := "5", tagid := 3 }),
     ("b.jpg", { x := "30", y := "40", size := "5", tagid := 4 })]
    [("a.jpg", [{ x := "10", y := "20", size := "5", tagid := 3 }]),
     ("b.jpg", [{ x := "30", y := "40", size := "5", tagid := 4 }])]
    (by decide) (by decide)
  exact ⟨h.1, h.2.1⟩

/-- Claim C6: the view catalog has one entry per distinct basename (all N
when basenames are distinct, fewer on collision), and its lookup function
is fully determined by the last record carrying each basename, which is
exactly the order-independence-modulo-collision-winner property. -/
theorem C6_thm (views : List ViewRec) :
    ((views.map (fun r => basename r.path)).Nodup →
        (load_viewids views).length = views.length) ∧
    (¬(views.map (fun r => basename r.path)).Nodup →
        (load_viewids views).length < views.length) ∧
    (∀ b, lookupA (load_viewids views) b =
        (views.reverse.find? (fun r => basename r.path = b)).map (fun r => r.viewId)) := by
  refine ⟨?_, ?_, ?_⟩
  · intro h
    rw [load_viewids_length, List.dedup_eq_self.mpr h, List.length_map]
  · intro h
    rw [load_viewids_length]
    have hle := (List.dedup_sublist (views.map fun r => basename r.path)).length_le
    have hne : (views.map (fun r => basename r.path)).dedup.length ≠
        (views.map (fun r => basename r.path)).length := by
      intro hh
      exact h (((List.dedup_sublist _).eq_of_length hh) ▸ List.nodup_dedup _)
    have hlen : (views.map (fun r => basename r.path)).length = views.length :=
      List.length_map _ _
    omega
  · intro b
    rw [load_viewids, lookupA_foldl_viewids]
    cases hf : views.reverse.find? (fun r => decide (basename r.path = b)) with
    | some r => rfl
    | none => rfl

/-- Claim C6, witness: two distinct basenames give two entries; a
colliding basename gives one entry whose winner is the later record. -/
theorem C6_witness :
    (load_viewids [{ path := "d/a.jpg", viewId := "1" }, { path := "b.jpg", viewId := "2" }]).length
      = 2 ∧
    (load_viewids [{ path := "a.jpg", viewId := "1" }, { path := "c/a.jpg", viewId := "2" }]).length
      < 2 ∧
    lookupA (load_viewids [{ path := "a.jpg", viewId := "1" }, { path := "c/a.jpg", viewId := "2" }])
        "a.jpg" =
      (([{ path := "a.jpg", viewId := "1" }, { path := "c/a.jpg", viewId := "2" }] :
          List ViewRec).reverse.find? (fun r => basename r.path = "a.jpg")).map
        (fun r => r.viewId) :=
  ⟨(C6_thm [{ path := "d/a.jpg", viewId := "1" }, { path := "b.jpg", viewId := "2" }]).1
      (by decide),
   (C6_thm [{ path := "a.jpg", viewId := "1" }, { path := "c/a.jpg", viewId := "2" }]).2.1
      (by decide),
   (C6_thm [{ path := "a.jpg", viewId := "1" }, { path := "c/a.jpg", viewId := "2" }]).2.2
      "a.jpg"⟩

/-- Claim C7: with markers present and bypass enabled the descriptor file
is exactly the 8 little-endian count bytes; the indicator block is
omitted. -/
theorem C7_thm (images : Images) (img vid : String) (markers : List Marker)
    (hm : lookupA images img = some markers) (_hk : markers ≠ []) :
    viewOut true images img vid =
      some { viewid := vid, featLines := markers.map featLine,
             descBytes := packQ markers.length } ∧
    (packQ markers.length).length = 8 := by
  constructor
  · simp [viewOut, hm]
  · exact packQ_length _

/-- Claim C7, witness: one marker with id 200 in bypass mode. -/
theorem C7_witness :
    viewOut true [("a.jpg", [{ x := "1", y := "2", size := "5", tagid := 200 }])] "a.jpg" "1" =
      some { viewid := "1",
             featLines := [{ x := "1", y := "2", size := "5", tagid := (200 : Int) }].map featLine,
             descBytes := packQ 1 } ∧
    (packQ 1).length = 8 :=
  C7_thm [("a.jpg", [{ x := "1", y := "2", size := "5", tagid := 200 }])] "a.jpg" "1"
    [{ x := "1", y := "2", size := "5", tagid := 200 }] (by decide) (by decide)

/-- Claim C8: a negative last markerId in [-128, -1] raises no error in
non-bypass mode: Python negative indexing sets the indicator byte at
offset 128 + markerId. -/
theorem C8_thm (images : Images) (img vid : String) (markers : List Marker) (m : Marker)
    (hm : lookupA images img = some markers) (hl : markers.getLast? = some m)
    (h1 : -128 ≤ m.tagid) (h2 : m.tagid < 0) :
    ∃ out, viewOut false images img vid = some out ∧
      out.descBytes.length = 8 + 128 ∧
      (out.descBytes.drop 8).getD (m.tagid + 128).toNat 0 = 255 := by
  have hbs := byteSet_neg m.tagid h1 h2
  refine ⟨{ viewid := vid, featLines := markers.map featLine,
            descBytes := packQ markers.length ++
              (List.replicate 128 0).set (m.tagid + 128).toNat 255 }, ?_, ?_, ?_⟩
  · rw [viewOut_some_false images img vid markers m hm hl, hbs, Option.map_some']
  · simp [packQ_length]
  · rw [getD_drop_packQ]
    refine getD_set_self _ _ _ ?_
    simp only [List.length_replicate]
    omega

/-- Claim C8, witness: last markerId -5 sets indicator offset 123. -/
theorem C8_witness :
    ∃ out, viewOut false [("a.jpg", [{ x := "1", y := "2", size := "5", tagid := -5 }])]
        "a.jpg" "1" = some out ∧
      out.descBytes.length = 8 + 128 ∧
      (out.descBytes.drop 8).getD 123 0 = 255 :=
  C8_thm [("a.jpg", [{ x := "1", y := "2", size := "5", tagid := -5 }])] "a.jpg" "1"
    [{ x := "1", y := "2", size := "5", tagid := -5 }]
    { x := "1", y := "2", size := "5", tagid := -5 }
    (by decide) (by decide) (by decide) (by decide)

/-- Claim C9: within one view, later observations of the same markerId
overwrite earlier feature-row indices, so the feature index stores the
last occurrence's row index (and the match emitter's per-tag lines read
exactly those stored indices). -/
theorem C9_thm (fl : FeatureLookup) (vid : String) (markers : List Marker) (t : Int)
    (hinner : lookupA fl vid = none ∨ lookupA fl vid = some []) :
    lookupA (innerFL (updateFL fl vid markers) vid) t =
      (((List.enumFrom 0 markers).filter (fun p => p.2.tagid = t)).getLast?).map
        (fun p => toString p.1) ∧
    ∀ (FL : FeatureLookup) (a b : String), tagLines FL a b =
      (sharedTags FL a b).map (fun t2 =>
        ((lookupA (innerFL FL a) t2).getD "") ++ " " ++ ((lookupA (innerFL FL b) t2).getD "")) := by
  constructor
  · have hbase : (lookupA fl vid).getD [] = [] := by
      rcases hinner with h | h <;> simp [h]
    rw [updateFL, innerFL, lookupA_dictInsert, if_pos rfl, hbase, Option.getD_some,
      lookupA_recordFeatures]
    cases hg : (List.filter (fun p => decide (p.2.tagid = t)) (List.enumFrom 0 markers)).getLast? with
    | some p => rfl
    | none => rfl
  · intro FL a b
    rfl

/-- Claim C9, witness: two observations of tag 7 in one view; the stored
index is 1 (the second row), and a tag line joins the stored strings. -/
theorem C9_witness :
    lookupA (innerFL (updateFL [] "1"
        [{ x := "1", y := "2", size := "5", tagid := 7 },
         { x := "3", y := "4", size := "5", tagid := 7 }]) "1") 7 = some "1" ∧
    tagLines [("1", [((7 : Int), "1")]), ("2", [((7 : Int), "0")])] "1" "2" = ["1 0"] := by
  constructor
  · exact ((C9_thm [] "1"
      [{ x := "1", y := "2", size := "5", tagid := 7 },
       { x := "3", y := "4", size := "5", tagid := 7 }] 7 (Or.inl rfl)).1).trans (by decide)
  · exact ((C9_thm [] "1"
      [{ x := "1", y := "2", size := "5", tagid := 7 },
       { x := "3", y := "4", size := "5", tagid := 7 }] 7 (Or.inl rfl)).2
      [("1", [((7 : Int), "1")]), ("2", [((7 : Int), "0")])] "1" "2").trans (by decide)

/-- Claim C10: with bypass enabled the match file is always produced (the
run's second component is `some`), and when no pair of views shares a
marker id its content is the empty string (a zero-length file). -/
theorem C10_thm (dtype delimName : String) (views : List ViewRec) (text : String)
    (outs : List ViewOutput) (mo : Option String)
    (h : processChunk true dtype delimName views text = some (outs, mo)) :
    (∃ content, mo = some content) ∧
    (∀ (pairs : List (String × String)) (fl : FeatureLookup),
      (∀ p ∈ pairs, sharedTags fl p.1 p.2 = []) → make_matches_txt dtype pairs fl = "") := by
  constructor
  · simp only [processChunk] at h
    split at h
    · exact Option.noConfusion h
    · split at h
      · exact Option.noConfusion h
      · split at h
        · exact Option.noConfusion h
        · simp only [if_true] at h
          have hp := Option.some.inj h
          exact ⟨_, (congrArg Prod.snd hp).symm⟩
  · intro pairs fl hall
    rw [make_matches_txt, matchLines_nil dtype fl pairs hall]
    rfl

/-- Claim C10, witness: two views with disjoint tags; the match file is
written and empty. -/
theorem C10_witness :
    (∃ content, (some "" : Option String) = some content) ∧
    (∀ (pairs : List (String × String)) (fl : FeatureLookup),
      (∀ p ∈ pairs, sharedTags fl p.1 p.2 = []) → make_matches_txt "cctag3" pairs fl = "") :=
  C10_thm "cctag3" "comma"
    [{ path := "a.jpg", viewId := "1" }, { path := "b.jpg", viewId := "2" }]
    "10,20,a.jpg,1,5\n30,40,b.jpg,2,5"
    [{ viewid := "1", featLines := ["10 20 5 0\n"], descBytes := packQ 1 },
     { viewid := "2", featLines := ["30 40 5 0\n"], descBytes := packQ 1 }]
    (some "")
    (by decide)
